import Mathlib

/-!
Verification of the webhook signature protocol of `@locu/api-client`
(`src/webhook.ts`): header codec, HMAC-SHA256 signature engine, replay
window validation, and the constant-time comparison, shallowly embedded
as executable Lean functions.

Machine integers are modelled as `Nat`/`Int` with explicit truncation
(`% 2 ^ 32` for SHA-256 word arithmetic, `% 256` for bytes). JavaScript
strings are modelled as Lean `String`s; byte views use an explicit UTF-8
encoder, matching Node's `Buffer.from(s)`/`hmac.update(s)` behaviour.
-/

namespace LocuWebhook

/-! ## 32-bit word arithmetic for SHA-256 -/

/-- Truncation to a 32-bit word. -/
def w32 (n : Nat) : Nat := n % 4294967296

/-- Right rotation of a 32-bit word by `n` bits. -/
def rotr (n x : Nat) : Nat := w32 ((x >>> n) ||| (x <<< (32 - n)))

/-- Logical right shift. -/
def shr (n x : Nat) : Nat := x >>> n

/-- Bitwise complement of a 32-bit word. -/
def not32 (x : Nat) : Nat := x ^^^ 4294967295

/-- SHA-256 choice function. -/
def ch (x y z : Nat) : Nat := (x &&& y) ^^^ (not32 x &&& z)

/-- SHA-256 majority function. -/
def maj (x y z : Nat) : Nat := (x &&& y) ^^^ (x &&& z) ^^^ (y &&& z)

/-- SHA-256 big sigma 0. -/
def bigSigma0 (x : Nat) : Nat := rotr 2 x ^^^ rotr 13 x ^^^ rotr 22 x

/-- SHA-256 big sigma 1. -/
def bigSigma1 (x : Nat) : Nat := rotr 6 x ^^^ rotr 11 x ^^^ rotr 25 x

/-- SHA-256 small sigma 0. -/
def smallSigma0 (x : Nat) : Nat := rotr 7 x ^^^ rotr 18 x ^^^ shr 3 x

/-- SHA-256 small sigma 1. -/
def smallSigma1 (x : Nat) : Nat := rotr 17 x ^^^ rotr 19 x ^^^ shr 10 x

/-- SHA-256 round constants (FIPS 180-4). -/
def sha256K : List Nat :=
  [1116352408, 1899447441, 3049323471, 3921009573, 961987163,
   1508970993, 2453635748, 2870763221, 3624381080, 310598401,
   607225278, 1426881987, 1925078388, 2162078206, 2614888103,
   3248222580, 3835390401, 4022224774, 264347078, 604807628,
   770255983, 1249150122, 1555081692, 1996064986, 2554220882,
   2821834349, 2952996808, 3210313671, 3336571891, 3584528711,
   113926993, 338241895, 666307205, 773529912, 1294757372,
   1396182291, 1695183700, 1986661051, 2177026350, 2456956037,
   2730485921, 2820302411, 3259730800, 3345764771, 3516065817,
   3600352804, 4094571909, 275423344, 430227734, 506948616,
   659060556, 883997877, 958139571, 1322822218, 1537002063,
   1747873779, 1955562222, 2024104815, 2227730452, 2361852424,
   2428436474, 2756734187, 3204031479, 3329325298]

/-- SHA-256 initial hash value (FIPS 180-4). -/
def sha256H0 : List Nat :=
  [1779033703, 3144134277, 1013904242, 2773480762, 1359893119,
   2600822924, 528734635, 1541459225]

/-- Big-endian 32-bit words from a byte list (groups of 4; a trailing
incomplete group is dropped; blocks are always a multiple of 4 long). -/
def wordsOfBytes : List Nat → List Nat
  | b0 :: b1 :: b2 :: b3 :: rest =>
    ((b0 <<< 24) ||| (b1 <<< 16) ||| (b2 <<< 8) ||| b3) :: wordsOfBytes rest
  | _ => []

/-- Big-endian bytes of a 32-bit word. -/
def wordBytes (w : Nat) : List Nat :=
  [(w >>> 24) % 256, (w >>> 16) % 256, (w >>> 8) % 256, w % 256]

/-- Big-endian bytes of a 64-bit length field. -/
def be64 (n : Nat) : List Nat :=
  [(n >>> 56) % 256, (n >>> 48) % 256, (n >>> 40) % 256, (n >>> 32) % 256,
   (n >>> 24) % 256, (n >>> 16) % 256, (n >>> 8) % 256, n % 256]

/-- SHA-256 padding: append `0x80`, zeros, and the 64-bit big-endian bit
length, reaching a multiple of 64 bytes. -/
def padMessage (msg : List Nat) : List Nat :=
  msg ++ 128 :: List.replicate ((119 - msg.length % 64) % 64) 0 ++ be64 (8 * msg.length)

/-- Block splitting worker, with fuel bounding the number of blocks so
that the recursion is structural (and hence kernel-computable); the fuel
passed by `chunks64` always suffices. -/
def chunks64Go : Nat → List Nat → List (List Nat)
  | 0, _ => []
  | fuel + 1, l => if l = [] then [] else l.take 64 :: chunks64Go fuel (l.drop 64)

/-- Split a byte list into successive 64-byte blocks. -/
def chunks64 (l : List Nat) : List (List Nat) := chunks64Go l.length l

/-- Next word of the SHA-256 message schedule, from the words so far. -/
def nextScheduleWord (ws : List Nat) : Nat :=
  w32 (smallSigma1 (ws.getD (ws.length - 2) 0) + ws.getD (ws.length - 7) 0 +
       smallSigma0 (ws.getD (ws.length - 15) 0) + ws.getD (ws.length - 16) 0)

/-- Extend the message schedule by `n` further words. -/
def extendSchedule : Nat → List Nat → List Nat
  | 0, ws => ws
  | n + 1, ws => extendSchedule n (ws ++ [nextScheduleWord ws])

/-- The 64-word message schedule of one 64-byte block. -/
def messageSchedule (block : List Nat) : List Nat :=
  extendSchedule 48 (wordsOfBytes block)

/-- Working state of the SHA-256 compression rounds. -/
structure Sha256State where
  a : Nat
  b : Nat
  c : Nat
  d : Nat
  e : Nat
  f : Nat
  g : Nat
  h : Nat

/-- One SHA-256 compression round; `kw` is the pair of round constant and
schedule word. -/
def roundStep (s : Sha256State) (kw : Nat × Nat) : Sha256State :=
  let t1 := w32 (s.h + bigSigma1 s.e + ch s.e s.f s.g + kw.1 + kw.2)
  let t2 := w32 (bigSigma0 s.a + maj s.a s.b s.c)
  ⟨w32 (t1 + t2), s.a, s.b, s.c, w32 (s.d + t1), s.e, s.f, s.g⟩

/-- SHA-256 compression of one 64-byte block into the running hash value
(a list of eight 32-bit words). -/
def compress (hs : List Nat) (block : List Nat) : List Nat :=
  let f := (sha256K.zip (messageSchedule block)).foldl roundStep
    ⟨hs.getD 0 0, hs.getD 1 0, hs.getD 2 0, hs.getD 3 0,
     hs.getD 4 0, hs.getD 5 0, hs.getD 6 0, hs.getD 7 0⟩
  [w32 (hs.getD 0 0 + f.a), w32 (hs.getD 1 0 + f.b), w32 (hs.getD 2 0 + f.c),
   w32 (hs.getD 3 0 + f.d), w32 (hs.getD 4 0 + f.e), w32 (hs.getD 5 0 + f.f),
   w32 (hs.getD 6 0 + f.g), w32 (hs.getD 7 0 + f.h)]

/-- SHA-256 digest (32 bytes) of a byte message. -/
def sha256 (msg : List Nat) : List Nat :=
  ((chunks64 (padMessage msg)).foldl compress sha256H0).flatMap wordBytes

/-- HMAC-SHA256 (RFC 2104) of a byte message under a byte key, with the
SHA-256 block size of 64 bytes. -/
def hmacSha256 (key msg : List Nat) : List Nat :=
  let k0 := if 64 < key.length then sha256 key else key
  let kpad := k0 ++ List.replicate (64 - k0.length) 0
  sha256 (kpad.map (fun b => b ^^^ 92) ++ sha256 (kpad.map (fun b => b ^^^ 54) ++ msg))

/-! ## UTF-8 byte view of strings -/

/-- UTF-8 encoding of one Unicode code point. -/
def utf8EncodeCharNat (c : Nat) : List Nat :=
  if c < 128 then [c]
  else if c < 2048 then [192 ||| (c >>> 6), 128 ||| (c &&& 63)]
  else if c < 65536 then
    [224 ||| (c >>> 12), 128 ||| ((c >>> 6) &&& 63), 128 ||| (c &&& 63)]
  else
    [240 ||| (c >>> 18), 128 ||| ((c >>> 12) &&& 63), 128 ||| ((c >>> 6) &&& 63),
     128 ||| (c &&& 63)]

/-- UTF-8 bytes of a string, as Node's `hmac.update(string)` sees it. -/
def utf8Bytes (s : String) : List Nat := s.data.flatMap (fun c => utf8EncodeCharNat c.toNat)

/-! ## Hexadecimal codec

`digest("hex")` emits lowercase hex; `Buffer.from(s, "hex")` decodes hex
digits of either case two at a time and, per the Node documentation,
truncates at the first non-hexadecimal character (an incomplete trailing
pair is dropped). -/

/-- Lowercase hex digit character for a value below 16. -/
def hexDigitChar (n : Nat) : Char :=
  if n < 10 then Char.ofNat (48 + n) else Char.ofNat (87 + n)

/-- Lowercase hex encoding of a byte list, as `digest("hex")` emits. -/
def hexEncode (bs : List Nat) : List Char :=
  bs.flatMap (fun b => [hexDigitChar (b / 16), hexDigitChar (b % 16)])

/-- Value of one hex digit character, either case; `none` on any other
character. -/
def hexVal (c : Char) : Option Nat :=
  if 48 ≤ c.toNat ∧ c.toNat ≤ 57 then some (c.toNat - 48)
  else if 97 ≤ c.toNat ∧ c.toNat ≤ 102 then some (c.toNat - 87)
  else if 65 ≤ c.toNat ∧ c.toNat ≤ 70 then some (c.toNat - 55)
  else none

/-- Hex decoding with Node's `Buffer.from(s, "hex")` semantics: decode
pairs of hex digits until the first pair containing a non-hex character
(or a lone trailing character), then stop, keeping the bytes decoded so
far. It never fails. -/
def hexDecode : List Char → List Nat
  | c1 :: c2 :: rest =>
    match hexVal c1, hexVal c2 with
    | some hi, some lo => (16 * hi + lo) :: hexDecode rest
    | _, _ => []
  | _ => []

/-! ## JavaScript number and string primitives -/

/-- Whitespace skipped by JavaScript `parseInt` (ASCII white space). -/
def isJsWhitespace (c : Char) : Bool :=
  c == ' ' || c == '\t' || c == '\n' || c == '\r' || c.toNat == 11 || c.toNat == 12

/-- Value of a decimal digit character; `none` otherwise. -/
def digitVal (c : Char) : Option Nat :=
  if 48 ≤ c.toNat ∧ c.toNat ≤ 57 then some (c.toNat - 48) else none

/-- Drop leading JavaScript whitespace. -/
def skipJsWs : List Char → List Char
  | [] => []
  | c :: rest => if isJsWhitespace c then skipJsWs rest else c :: rest

/-- Accumulate the longest decimal-digit run: `parseInt`'s digit loop.
`seen` records whether at least one digit has been read; with no digit
the result is `none`, modelling `NaN`. -/
def takeDigitsAcc : List Char → Nat → Bool → Option Nat
  | [], acc, seen => if seen then some acc else none
  | c :: rest, acc, seen =>
    match digitVal c with
    | some d => takeDigitsAcc rest (10 * acc + d) true
    | none => if seen then some acc else none

/-- JavaScript `parseInt(s, 10)` on a character list with leading
whitespace already stripped: an optional sign, then the longest digit
run; `none` models `NaN`. Trailing non-digit characters are ignored. -/
def jsParseInt10Chars (cs : List Char) : Option Int :=
  match cs with
  | [] => none
  | c :: rest =>
    if c = '-' then (takeDigitsAcc rest 0 false).map (fun n => -(n : Int))
    else if c = '+' then (takeDigitsAcc rest 0 false).map (fun n => (n : Int))
    else (takeDigitsAcc (c :: rest) 0 false).map (fun n => (n : Int))

/-- JavaScript `parseInt(s, 10)` on a character list. -/
def jsParseInt10L (cs : List Char) : Option Int := jsParseInt10Chars (skipJsWs cs)

/-- JavaScript `parseInt(s, 10)`; `none` models `NaN`. -/
def jsParseInt10 (s : String) : Option Int := jsParseInt10L s.data

/-- Decimal digit character. -/
def digitChar (n : Nat) : Char := Char.ofNat (48 + n)

/-- Little-endian decimal digit characters of a natural number, with
fuel bounding the digit count so that the recursion is structural (and
hence kernel-computable); any fuel above the value suffices. -/
def natDecDigitsGo : Nat → Nat → List Char
  | 0, _ => []
  | fuel + 1, n =>
    if n < 10 then [digitChar n] else digitChar (n % 10) :: natDecDigitsGo fuel (n / 10)

/-- Decimal digit characters of a natural number, most significant first. -/
def natDecString (n : Nat) : List Char := (natDecDigitsGo (n + 1) n).reverse

/-- JavaScript number-to-string conversion for an integer value, as the
template literal in the source interpolates the timestamp (exact decimal
for the integers in the safe range; the model is decimal for every
integer). -/
def jsIntToString (i : Int) : String :=
  if i < 0 then String.mk ('-' :: natDecString (-i).toNat)
  else String.mk (natDecString i.toNat)

/-! ## Header codec (`parseWebhookSignature`, lines 35-60) -/

/-- Result type of `parseWebhookSignature`. -/
structure ParsedWebhookSignature where
  timestamp : Int
  signature : String
  deriving DecidableEq

/-- JavaScript `String.prototype.split(",")`: every string splits into at
least one (possibly empty) segment. -/
def splitOnComma : List Char → List (List Char)
  | [] => [[]]
  | c :: rest =>
    if c = ',' then [] :: splitOnComma rest
    else
      match splitOnComma rest with
      | [] => [[c]]
      | s :: ss => (c :: s) :: ss

/-- Split a segment at its first `=`: `part.indexOf("=")` together with
the two `part.slice` calls; `none` models `eqIndex === -1`. The value is
everything after the first `=`, further `=` characters included. -/
def splitFirstEq : List Char → Option (List Char × List Char)
  | [] => none
  | c :: rest =>
    if c = '=' then some ([], rest)
    else (splitFirstEq rest).map (fun kv => (c :: kv.1, kv.2))

/-- The `for (const part of parts)` scan of `parseWebhookSignature`:
fold over the segments, overwriting the `t` slot (already passed through
`parseInt`, inner `none` modelling `NaN`) and the `v1` slot; the outer
`none` models the variable still holding `null`. -/
def scanSegments : List (List Char) → Option (Option Int) → Option (List Char) →
    Option (Option Int) × Option (List Char)
  | [], t, v => (t, v)
  | seg :: rest, t, v =>
    match splitFirstEq seg with
    | none => scanSegments rest t v
    | some (key, val) =>
      if key = ['t'] then scanSegments rest (some (jsParseInt10L val)) v
      else if key = ['v', '1'] then scanSegments rest t (some val)
      else scanSegments rest t v

/-- Embedding of `parseWebhookSignature` (`src/webhook.ts` lines 35-60):
split the header on `,`, scan the segments, and fail (with `null`,
modelled as `none`) when `t` was never set, `v1` was never set, or the
last `t` value parsed to `NaN`. -/
def parseWebhookSignature (signatureHeader : String) : Option ParsedWebhookSignature :=
  match scanSegments (splitOnComma signatureHeader.data) none none with
  | (some (some timestamp), some signature) => some ⟨timestamp, String.mk signature⟩
  | _ => none

/-! ## Verification and generation (`src/webhook.ts` lines 96-198) -/

/-- Result type of `verifyWebhookSignature`: `{valid: true}` or
`{valid: false, error}` with the error message of the source. -/
inductive WebhookSignatureResult where
  | valid : WebhookSignatureResult
  | invalid (error : String) : WebhookSignatureResult
  deriving DecidableEq

/-- Options record of `verifyWebhookSignature`; `none` models an absent
`maxAge` property. -/
structure VerifyWebhookOptions where
  maxAge : Option Int
  deriving DecidableEq

/-- Count-instrumented accumulator of Node's `crypto.timingSafeEqual`
core loop: first component is the OR-accumulated XOR of the byte pairs,
second counts the byte comparisons performed, to state that the scan
touches every byte position no matter where mismatches lie. -/
def xorAccumCount : List Nat → List Nat → Nat × Nat
  | a :: as, b :: bs =>
    let r := xorAccumCount as bs
    ((a ^^^ b) ||| r.1, r.2 + 1)
  | _, _ => (0, 0)

/-- Modelled from the spec: Node's `crypto.timingSafeEqual` is not part
of this repository; per its documentation and the spec's §4.4/§9 it is a
fixed-time byte-wise XOR-accumulate comparison that throws when the two
buffers differ in length (`none` models that exception). -/
def timingSafeEqual (a b : List Nat) : Option Bool :=
  if a.length = b.length then some ((xorAccumCount a b).1 == 0) else none

/-- The byte-buffer comparison of `verifyWebhookSignature`
(`src/webhook.ts` lines 131-145): return `Invalid signature` on length
mismatch before calling the fixed-time comparison, otherwise compare in
fixed time; `none` models an exception escaping `timingSafeEqual`. -/
def compareSignatureBuffers (signatureBuffer expectedBuffer : List Nat) :
    Option WebhookSignatureResult :=
  if signatureBuffer.length ≠ expectedBuffer.length then
    some (.invalid "Invalid signature")
  else
    match timingSafeEqual signatureBuffer expectedBuffer with
    | none => none
    | some isValid =>
      if isValid then some .valid else some (.invalid "Invalid signature")

/-- The signature comparison tail of `verifyWebhookSignature`
(`src/webhook.ts` lines 125-145): compute the expected hex signature of
`"{timestamp}.{body}"`, decode both hex strings, then compare the byte
buffers. -/
def verifySignatureTail (secret : String) (timestamp : Int) (signature : String)
    (body : String) : Option WebhookSignatureResult :=
  compareSignatureBuffers (hexDecode signature.data)
    (hexDecode (String.mk (hexEncode (hmacSha256 (utf8Bytes secret)
      (utf8Bytes (jsIntToString timestamp ++ "." ++ body))))).data)

/-- Embedding of `verifyWebhookSignature` (`src/webhook.ts` lines
96-146). `now` is the value `Math.floor(Date.now() / 1000)` the source
reads once inside the `maxAge` branch, passed explicitly as the wall
clock is an input of the embedding; `none` as a result models a thrown
exception. -/
def verifyWebhookSignature (secret signatureHeader body : String)
    (options : Option VerifyWebhookOptions) (now : Int) : Option WebhookSignatureResult :=
  match parseWebhookSignature signatureHeader with
  | none => some (.invalid "Invalid signature format")
  | some parsed =>
    match options.bind VerifyWebhookOptions.maxAge with
    | some maxAge =>
      let age := now - parsed.timestamp
      if age > maxAge then some (.invalid "Signature timestamp too old")
      else if age < -60 then some (.invalid "Signature timestamp in the future")
      else verifySignatureTail secret parsed.timestamp parsed.signature body
    | none => verifySignatureTail secret parsed.timestamp parsed.signature body

/-- Hex HMAC-SHA256 as both `generateWebhookSignature` and the expected
value inside `verifyWebhookSignature` compute it:
`createHmac("sha256", secret).update(payload).digest("hex")`. -/
def hmacSha256Hex (secret payload : String) : String :=
  String.mk (hexEncode (hmacSha256 (utf8Bytes secret) (utf8Bytes payload)))

/-- The canonical header layout `t=<timestamp>,v1=<signature>` (the
spec's `format`), exactly the template literal `generateWebhookSignature`
returns. -/
def formatSignatureHeader (timestamp : Int) (signature : String) : String :=
  "t=" ++ jsIntToString timestamp ++ ",v1=" ++ signature

/-- Embedding of `generateWebhookSignature` (`src/webhook.ts` lines
188-198): hex HMAC-SHA256 of `"{timestamp}.{body}"` under `secret`,
wrapped in the canonical header layout. -/
def generateWebhookSignature (secret : String) (timestamp : Int) (body : String) : String :=
  formatSignatureHeader timestamp
    (hmacSha256Hex secret (jsIntToString timestamp ++ "." ++ body))

/-! ## Specification-side notions used to state the claims -/

/-- Lowercase hexadecimal digit character, as the spec describes the
emitted digest encoding. -/
def isLowerHexChar (c : Char) : Bool :=
  (48 ≤ c.toNat && c.toNat ≤ 57) || (97 ≤ c.toNat && c.toNat ≤ 102)

/-- Base-10 integer literal in the sense of the claim about
`parseWebhookSignature`: an optional sign followed by a nonempty run of
decimal digits and nothing else. -/
def specIsBase10IntegerLiteral (s : String) : Bool :=
  match s.data with
  | '-' :: ds => !ds.isEmpty && ds.all (fun c => (digitVal c).isSome)
  | '+' :: ds => !ds.isEmpty && ds.all (fun c => (digitVal c).isSome)
  | ds => !ds.isEmpty && ds.all (fun c => (digitVal c).isSome)

/-- The `t`/`v1` value one segment contributes: the part after the first
`=` when the key before it is exactly `key`. -/
def segValue (key seg : List Char) : Option (List Char) :=
  match splitFirstEq seg with
  | some kv => if kv.1 = key then some kv.2 else none
  | none => none

/-- The value of the final segment carrying `key`: later segments take
precedence over earlier ones. -/
def lastValueOfKey (key : List Char) : List (List Char) → Option (List Char)
  | [] => none
  | seg :: rest =>
    match lastValueOfKey key rest with
    | some v => some v
    | none => segValue key seg

/-- Uppercasing of the six lowercase hex letters, to state
case-insensitivity of signature verification. -/
def upperHexChar (c : Char) : Char :=
  if c = 'a' then 'A' else if c = 'b' then 'B' else if c = 'c' then 'C'
  else if c = 'd' then 'D' else if c = 'e' then 'E' else if c = 'f' then 'F' else c

/-- Digit-run value accumulator mirrored by `takeDigitsAcc`. -/
def valOfDigits (cs : List Char) (acc : Nat) : Nat :=
  cs.foldl (fun a c => 10 * a + (digitVal c).getD 0) acc

/-! ## Bitwise and comparator lemmas -/

theorem nat_or_eq_zero_iff (a b : Nat) : a ||| b = 0 ↔ a = 0 ∧ b = 0 := by
  constructor
  · intro h
    have hi : ∀ i, a.testBit i = false ∧ b.testBit i = false := by
      intro i
      have h2 := congrArg (fun n => n.testBit i) h
      simpa [Nat.testBit_lor, Nat.zero_testBit, Bool.or_eq_false_iff] using h2
    constructor <;> apply Nat.eq_of_testBit_eq <;> intro i <;>
      simp [Nat.zero_testBit, (hi i).1, (hi i).2]
  · rintro ⟨rfl, rfl⟩
    rfl

theorem xorAccumCount_fst_self (a : List Nat) : (xorAccumCount a a).1 = 0 := by
  induction a with
  | nil => rfl
  | cons x xs ih => simp [xorAccumCount, Nat.xor_self, ih]

theorem xorAccumCount_fst_eq_zero_iff (a b : List Nat) (h : a.length = b.length) :
    (xorAccumCount a b).1 = 0 ↔ a = b := by
  induction a generalizing b with
  | nil =>
    cases b with
    | nil => simp [xorAccumCount]
    | cons y ys => simp at h
  | cons x xs ih =>
    cases b with
    | nil => simp at h
    | cons y ys =>
      simp only [List.length_cons, Nat.add_right_cancel_iff] at h
      simp only [xorAccumCount, nat_or_eq_zero_iff, Nat.xor_eq_zero, ih ys h,
        List.cons.injEq]

theorem xorAccumCount_snd (a b : List Nat) :
    (xorAccumCount a b).2 = min a.length b.length := by
  induction a generalizing b with
  | nil => cases b <;> simp [xorAccumCount]
  | cons x xs ih =>
    cases b with
    | nil => simp [xorAccumCount]
    | cons y ys =>
      simp only [xorAccumCount, ih ys, List.length_cons]
      omega

theorem timingSafeEqual_self (a : List Nat) : timingSafeEqual a a = some true := by
  simp [timingSafeEqual, xorAccumCount_fst_self]

theorem timingSafeEqual_eq_length (a b : List Nat) (h : a.length = b.length) :
    timingSafeEqual a b = some (decide (a = b)) := by
  simp only [timingSafeEqual, if_pos h]
  rcases Decidable.em (a = b) with he | he
  · subst he
    simp [xorAccumCount_fst_self]
  · have h0 : (xorAccumCount a b).1 ≠ 0 := fun h0 =>
      he ((xorAccumCount_fst_eq_zero_iff a b h).mp h0)
    have h1 : ((xorAccumCount a b).1 == 0) = false := by simpa using h0
    rw [h1, decide_eq_false he]

/-! ## Hex codec lemmas -/

theorem hexVal_hexDigitChar {n : Nat} (h : n < 16) : hexVal (hexDigitChar n) = some n := by
  interval_cases n <;> decide

theorem isLowerHexChar_hexDigitChar {n : Nat} (h : n < 16) :
    isLowerHexChar (hexDigitChar n) = true := by
  interval_cases n <;> decide

theorem isLowerHexChar_ne (c : Char) (h : isLowerHexChar c = true) :
    c ≠ ',' ∧ c ≠ '=' := by
  constructor <;> rintro rfl <;> exact absurd h (by decide)

theorem hexVal_isSome_of_isLowerHexChar (c : Char) (h : isLowerHexChar c = true) :
    (hexVal c).isSome := by
  simp only [isLowerHexChar, Bool.or_eq_true, Bool.and_eq_true, decide_eq_true_eq] at h
  simp only [hexVal, Option.isSome]
  rcases h with h | h
  · rw [if_pos ⟨h.1, h.2⟩]
  · rw [if_neg (by omega), if_pos ⟨h.1, h.2⟩]

theorem mem_hexEncode_isLowerHexChar {bs : List Nat} (hb : ∀ b ∈ bs, b < 256)
    {c : Char} (hc : c ∈ hexEncode bs) : isLowerHexChar c = true := by
  simp only [hexEncode, List.mem_flatMap] at hc
  obtain ⟨b, hmem, hc⟩ := hc
  have hblt : b < 256 := hb b hmem
  have hdiv : b / 16 < 16 := (Nat.div_lt_iff_lt_mul (by omega)).mpr (by omega)
  have hmod : b % 16 < 16 := Nat.mod_lt _ (by omega)
  simp only [List.mem_cons, List.mem_singleton, List.not_mem_nil, or_false] at hc
  rcases hc with rfl | rfl
  · exact isLowerHexChar_hexDigitChar hdiv
  · exact isLowerHexChar_hexDigitChar hmod

theorem hexEncode_length (bs : List Nat) : (hexEncode bs).length = 2 * bs.length := by
  induction bs with
  | nil => rfl
  | cons b rest ih =>
    simp only [hexEncode, List.flatMap_cons] at ih ⊢
    simp [ih]
    omega

theorem hexDecode_hexEncode_append (bs : List Nat) (rest : List Char)
    (hb : ∀ b ∈ bs, b < 256) :
    hexDecode (hexEncode bs ++ rest) = bs ++ hexDecode rest := by
  induction bs with
  | nil => rfl
  | cons b tl ih =>
    have hblt : b < 256 := hb b (List.mem_cons_self b tl)
    have hdiv : b / 16 < 16 := (Nat.div_lt_iff_lt_mul (by omega)).mpr (by omega)
    have hmod : b % 16 < 16 := Nat.mod_lt _ (by omega)
    have htl : ∀ x ∈ tl, x < 256 := fun x hx => hb x (List.mem_cons_of_mem b hx)
    have step : hexDecode (hexEncode (b :: tl) ++ rest) =
        (16 * (b / 16) + b % 16) :: hexDecode (hexEncode tl ++ rest) := by
      show hexDecode (hexDigitChar (b / 16) :: hexDigitChar (b % 16) ::
        (hexEncode tl ++ rest)) = _
      simp only [hexDecode]
      rw [hexVal_hexDigitChar hdiv, hexVal_hexDigitChar hmod]
    rw [step, ih htl]
    simp only [List.cons_append, List.cons.injEq, and_true, true_and]
    omega

theorem hexDecode_nil : hexDecode [] = [] := rfl

theorem hexDecode_hexEncode (bs : List Nat) (hb : ∀ b ∈ bs, b < 256) :
    hexDecode (hexEncode bs) = bs := by
  have h2 := hexDecode_hexEncode_append bs [] hb
  simpa [hexDecode_nil] using h2

/-! ## Digest shape lemmas -/

theorem compress_length (hs block : List Nat) : (compress hs block).length = 8 := rfl

theorem foldl_compress_length (bs : List (List Nat)) (hs : List Nat) (h : hs.length = 8) :
    (bs.foldl compress hs).length = 8 := by
  induction bs generalizing hs with
  | nil => simpa using h
  | cons b rest ih => exact ih (compress hs b) (compress_length hs b)

theorem flatMap_wordBytes_length (l : List Nat) : (l.flatMap wordBytes).length = 4 * l.length := by
  induction l with
  | nil => rfl
  | cons w rest ih =>
    simp only [List.flatMap_cons, List.length_append, ih, wordBytes, List.length_cons]
    simp
    omega

theorem sha256_length (msg : List Nat) : (sha256 msg).length = 32 := by
  unfold sha256
  rw [flatMap_wordBytes_length, foldl_compress_length _ _ (by rfl)]

theorem sha256_lt (msg : List Nat) : ∀ b ∈ sha256 msg, b < 256 := by
  intro b hb
  unfold sha256 at hb
  rw [List.mem_flatMap] at hb
  obtain ⟨w, _, hw⟩ := hb
  simp only [wordBytes, List.mem_cons, List.mem_singleton, List.not_mem_nil, or_false] at hw
  rcases hw with rfl | rfl | rfl | rfl <;> exact Nat.mod_lt _ (by omega)

theorem hmacSha256_length (key msg : List Nat) : (hmacSha256 key msg).length = 32 := by
  unfold hmacSha256
  exact sha256_length _

theorem hmacSha256_lt (key msg : List Nat) : ∀ b ∈ hmacSha256 key msg, b < 256 := by
  unfold hmacSha256
  exact sha256_lt _

/-! ## Decimal rendering and `parseInt` round trip -/

theorem digitChar_facts {d : Nat} (h : d < 10) :
    digitVal (digitChar d) = some d ∧ isJsWhitespace (digitChar d) = false ∧
    digitChar d ≠ ',' ∧ digitChar d ≠ '=' ∧ digitChar d ≠ '-' ∧ digitChar d ≠ '+' := by
  interval_cases d <;> refine ⟨by decide, by decide, by decide, by decide, by decide, by decide⟩

theorem mem_natDecDigitsGo {fuel n : Nat} (hf : n < fuel) :
    ∀ c ∈ natDecDigitsGo fuel n, ∃ d, d < 10 ∧ c = digitChar d := by
  induction fuel generalizing n with
  | zero => omega
  | succ fuel ih =>
    intro c hc
    by_cases h10 : n < 10
    · simp only [natDecDigitsGo, if_pos h10, List.mem_singleton] at hc
      exact ⟨n, h10, hc⟩
    · simp only [natDecDigitsGo, if_neg h10, List.mem_cons] at hc
      rcases hc with rfl | hc
      · exact ⟨n % 10, Nat.mod_lt _ (by omega), rfl⟩
      · have hlt : n / 10 < fuel := by
          have hq : n / 10 < n := Nat.div_lt_self (by omega) (by omega)
          omega
        exact ih hlt c hc

theorem natDecDigitsGo_ne_nil {fuel n : Nat} (hf : n < fuel) :
    natDecDigitsGo fuel n ≠ [] := by
  cases fuel with
  | zero => omega
  | succ fuel =>
    by_cases h10 : n < 10 <;> simp [natDecDigitsGo, h10]

theorem valOfDigits_append (l1 l2 : List Char) (acc : Nat) :
    valOfDigits (l1 ++ l2) acc = valOfDigits l2 (valOfDigits l1 acc) := by
  simp [valOfDigits, List.foldl_append]

theorem valOfDigits_natDecDigitsGo_reverse {fuel n : Nat} (hf : n < fuel) (acc : Nat) :
    valOfDigits (natDecDigitsGo fuel n).reverse acc =
      acc * 10 ^ (natDecDigitsGo fuel n).length + n := by
  induction fuel generalizing n acc with
  | zero => omega
  | succ fuel ih =>
    by_cases h10 : n < 10
    · have h1 : digitVal (digitChar n) = some n := (digitChar_facts h10).1
      simp [natDecDigitsGo, if_pos h10, valOfDigits, h1]
      omega
    · have hlt : n / 10 < fuel := by
        have hq : n / 10 < n := Nat.div_lt_self (by omega) (by omega)
        omega
      have h1 : digitVal (digitChar (n % 10)) = some (n % 10) :=
        (digitChar_facts (Nat.mod_lt _ (by omega))).1
      simp only [natDecDigitsGo, if_neg h10, List.reverse_cons, valOfDigits_append,
        ih hlt acc, List.length_cons]
      simp only [valOfDigits, List.foldl_cons, List.foldl_nil, h1, Option.getD_some]
      have hdm : 10 * (n / 10) + n % 10 = n := by omega
      have hpow : 10 ^ ((natDecDigitsGo fuel (n / 10)).length + 1) =
          10 ^ (natDecDigitsGo fuel (n / 10)).length * 10 := by
        rw [pow_succ]
      rw [hpow]
      generalize (10 : Nat) ^ (natDecDigitsGo fuel (n / 10)).length = P
      have hr : acc * (P * 10) = 10 * (acc * P) := by ring
      omega

theorem takeDigitsAcc_all (ds : List Char)
    (hds : ∀ c ∈ ds, ∃ d, d < 10 ∧ c = digitChar d) :
    (∀ acc, takeDigitsAcc ds acc true = some (valOfDigits ds acc)) ∧
    (ds ≠ [] → ∀ acc, takeDigitsAcc ds acc false = some (valOfDigits ds acc)) := by
  induction ds with
  | nil => exact ⟨fun acc => rfl, fun h => absurd rfl h⟩
  | cons c rest ih =>
    obtain ⟨d, hd10, rfl⟩ := hds c (List.mem_cons_self c rest)
    have hdv : digitVal (digitChar d) = some d := (digitChar_facts hd10).1
    have hrest := ih (fun x hx => hds x (List.mem_cons_of_mem _ hx))
    have hstep : ∀ acc seen, takeDigitsAcc (digitChar d :: rest) acc seen =
        some (valOfDigits (digitChar d :: rest) acc) := by
      intro acc seen
      simp only [takeDigitsAcc, hdv]
      simp only [valOfDigits, List.foldl_cons, hdv, Option.getD_some]
      exact hrest.1 (10 * acc + d)
    exact ⟨fun acc => hstep acc true, fun _ acc => hstep acc false⟩

theorem skipJsWs_natDecString (n : Nat) (rest : List Char) :
    skipJsWs (natDecString n ++ rest) = natDecString n ++ rest := by
  have hne := @natDecDigitsGo_ne_nil (n + 1) n (by omega)
  unfold natDecString
  rcases hrev : (natDecDigitsGo (n + 1) n).reverse with _ | ⟨c, cs⟩
  · exact absurd (by simpa using hrev) hne
  · have hc : c ∈ natDecDigitsGo (n + 1) n := by
      have : c ∈ (natDecDigitsGo (n + 1) n).reverse := by rw [hrev]; exact List.mem_cons_self c cs
      simpa using this
    obtain ⟨d, hd10, rfl⟩ := mem_natDecDigitsGo (by omega) c hc
    have hws : isJsWhitespace (digitChar d) = false := (digitChar_facts hd10).2.1
    simp [skipJsWs, hws]

theorem jsParseInt10L_natDecString (n : Nat) :
    jsParseInt10L (natDecString n) = some (n : Int) := by
  have hne := @natDecDigitsGo_ne_nil (n + 1) n (by omega)
  have hmem := @mem_natDecDigitsGo (n + 1) n (by omega)
  have hval := @valOfDigits_natDecDigitsGo_reverse (n + 1) n (by omega) 0
  have hws := skipJsWs_natDecString n []
  rw [List.append_nil] at hws
  unfold jsParseInt10L
  rw [hws]
  have hmemrev : ∀ c ∈ natDecString n, ∃ d, d < 10 ∧ c = digitChar d := by
    intro c hc
    exact hmem c (by simpa [natDecString] using hc)
  have hnerev : natDecString n ≠ [] := by
    simpa [natDecString] using hne
  rcases hrev : natDecString n with _ | ⟨c, cs⟩
  · exact absurd hrev hnerev
  · have hcmem : c ∈ natDecString n := by rw [hrev]; exact List.mem_cons_self c cs
    obtain ⟨d, hd10, hcd⟩ := hmemrev c hcmem
    have hfacts := digitChar_facts hd10
    have htake := (takeDigitsAcc_all (c :: cs) (by rw [← hrev]; exact hmemrev)).2 (by simp) 0
    simp only [jsParseInt10Chars, if_neg (hcd ▸ hfacts.2.2.2.2.1), if_neg (hcd ▸ hfacts.2.2.2.2.2)]
    rw [htake]
    have : valOfDigits (c :: cs) 0 = n := by
      rw [← hrev]
      unfold natDecString at hval ⊢
      simpa using hval
    simp [this]

theorem jsParseInt10L_jsIntToString (i : Int) :
    jsParseInt10L (jsIntToString i).data = some i := by
  by_cases hneg : i < 0
  · have hpos : 0 < -i := by omega
    have hn : ((-i).toNat : Int) = -i := Int.toNat_of_nonneg (by omega)
    simp only [jsIntToString, if_pos hneg]
    show jsParseInt10L ('-' :: natDecString (-i).toNat) = some i
    have hws : skipJsWs ('-' :: natDecString (-i).toNat) = '-' :: natDecString (-i).toNat := by
      simp [skipJsWs, isJsWhitespace]
    unfold jsParseInt10L
    rw [hws]
    have hne := @natDecDigitsGo_ne_nil ((-i).toNat + 1) (-i).toNat (by omega)
    have hmemrev : ∀ c ∈ natDecString (-i).toNat, ∃ d, d < 10 ∧ c = digitChar d := by
      intro c hc
      exact @mem_natDecDigitsGo ((-i).toNat + 1) (-i).toNat (by omega) c
        (by simpa [natDecString] using hc)
    have htake := (takeDigitsAcc_all (natDecString (-i).toNat) hmemrev).2
      (by simpa [natDecString] using hne) 0
    have hval := @valOfDigits_natDecDigitsGo_reverse ((-i).toNat + 1) (-i).toNat (by omega) 0
    simp only [jsParseInt10Chars, if_pos rfl]
    rw [htake]
    have hv : valOfDigits (natDecString (-i).toNat) 0 = (-i).toNat := by
      unfold natDecString
      simpa using hval
    rw [hv]
    show some (-(((-i).toNat : Nat) : Int)) = some i
    rw [hn]
    rw [neg_neg]
  · have h0 : (i.toNat : Int) = i := Int.toNat_of_nonneg (by omega)
    simp only [jsIntToString, if_neg hneg]
    show jsParseInt10L (natDecString i.toNat) = some i
    rw [jsParseInt10L_natDecString]
    rw [h0]

/-! ## Header codec lemmas -/

theorem splitOnComma_ne_nil (l : List Char) : splitOnComma l ≠ [] := by
  cases l with
  | nil => simp [splitOnComma]
  | cons c rest =>
    by_cases hc : c = ','
    · simp [splitOnComma, hc]
    · simp only [splitOnComma, if_neg hc]
      rcases hsp : splitOnComma rest with _ | ⟨s, ss⟩ <;> simp

theorem splitOnComma_append (a b : List Char) (ha : ∀ c ∈ a, c ≠ ',') :
    splitOnComma (a ++ ',' :: b) = a :: splitOnComma b := by
  induction a with
  | nil => simp [splitOnComma]
  | cons c a ih =>
    have hc : c ≠ ',' := ha c (List.mem_cons_self c a)
    have ha2 : ∀ x ∈ a, x ≠ ',' := fun x hx => ha x (List.mem_cons_of_mem c hx)
    simp only [List.cons_append, splitOnComma, if_neg hc, List.append_eq]
    rw [ih ha2]

theorem splitOnComma_no_comma (a : List Char) (ha : ∀ c ∈ a, c ≠ ',') :
    splitOnComma a = [a] := by
  induction a with
  | nil => rfl
  | cons c a ih =>
    have hc : c ≠ ',' := ha c (List.mem_cons_self c a)
    have ha2 : ∀ x ∈ a, x ≠ ',' := fun x hx => ha x (List.mem_cons_of_mem c hx)
    simp only [splitOnComma, if_neg hc, ih ha2]

theorem splitFirstEq_append (k v : List Char) (hk : ∀ c ∈ k, c ≠ '=') :
    splitFirstEq (k ++ '=' :: v) = some (k, v) := by
  induction k with
  | nil => simp [splitFirstEq]
  | cons c k ih =>
    have hc : c ≠ '=' := hk c (List.mem_cons_self c k)
    have hk2 : ∀ x ∈ k, x ≠ '=' := fun x hx => hk x (List.mem_cons_of_mem c hx)
    simp only [List.cons_append, splitFirstEq, if_neg hc, List.append_eq]
    rw [ih hk2]
    rfl

theorem scanSegments_eq_last (segs : List (List Char)) (t : Option (Option Int))
    (v : Option (List Char)) :
    scanSegments segs t v =
      ((match lastValueOfKey ['t'] segs with
        | some val => some (jsParseInt10L val)
        | none => t),
       (match lastValueOfKey ['v', '1'] segs with
        | some val => some val
        | none => v)) := by
  induction segs generalizing t v with
  | nil => simp [scanSegments, lastValueOfKey]
  | cons seg rest ih =>
    rcases hsp : splitFirstEq seg with _ | ⟨key, val⟩
    · have hsegt : segValue ['t'] seg = none := by simp [segValue, hsp]
      have hsegv : segValue ['v', '1'] seg = none := by simp [segValue, hsp]
      simp only [scanSegments, hsp, ih, lastValueOfKey, hsegt, hsegv]
      rcases lastValueOfKey ['t'] rest <;> rcases lastValueOfKey ['v', '1'] rest <;> rfl
    · by_cases ht : key = ['t']
      · subst ht
        have hsegt : segValue ['t'] seg = some val := by simp [segValue, hsp]
        have hsegv : segValue ['v', '1'] seg = none := by simp [segValue, hsp]
        simp only [scanSegments, hsp, if_pos rfl, ih, lastValueOfKey, hsegt, hsegv]
        rcases lastValueOfKey ['t'] rest <;> rcases lastValueOfKey ['v', '1'] rest <;> rfl
      · by_cases hv : key = ['v', '1']
        · subst hv
          have hsegt : segValue ['t'] seg = none := by simp [segValue, hsp, ht]
          have hsegv : segValue ['v', '1'] seg = some val := by simp [segValue, hsp]
          simp only [scanSegments, hsp, if_neg ht, if_pos rfl, ih, lastValueOfKey,
            hsegt, hsegv]
          rcases lastValueOfKey ['t'] rest <;> rcases lastValueOfKey ['v', '1'] rest <;> rfl
        · have hsegt : segValue ['t'] seg = none := by simp [segValue, hsp, ht]
          have hsegv : segValue ['v', '1'] seg = none := by simp [segValue, hsp, hv]
          simp only [scanSegments, hsp, if_neg ht, if_neg hv, ih, lastValueOfKey,
            hsegt, hsegv]
          rcases lastValueOfKey ['t'] rest <;> rcases lastValueOfKey ['v', '1'] rest <;> rfl

theorem parseWebhookSignature_eq_last (header : String) :
    parseWebhookSignature header =
      match lastValueOfKey ['t'] (splitOnComma header.data),
        lastValueOfKey ['v', '1'] (splitOnComma header.data) with
      | some tval, some sval =>
        (match jsParseInt10L tval with
         | some ts => some ⟨ts, String.mk sval⟩
         | none => none)
      | _, _ => none := by
  unfold parseWebhookSignature
  rw [scanSegments_eq_last]
  rcases lastValueOfKey ['t'] (splitOnComma header.data) with _ | tval <;>
    rcases lastValueOfKey ['v', '1'] (splitOnComma header.data) with _ | sval <;>
      simp
  rcases jsParseInt10L tval with _ | ts <;> simp

theorem jsIntToString_chars (i : Int) :
    ∀ c ∈ (jsIntToString i).data, c ≠ ',' ∧ c ≠ '=' := by
  intro c hc
  by_cases hneg : i < 0
  · simp only [jsIntToString, if_pos hneg] at hc
    rcases (by simpa using hc : c = '-' ∨ c ∈ natDecString (-i).toNat) with rfl | hc2
    · exact ⟨by decide, by decide⟩
    · obtain ⟨d, hd10, rfl⟩ := @mem_natDecDigitsGo ((-i).toNat + 1) (-i).toNat
        (by omega) c (by simpa [natDecString] using hc2)
      exact ⟨(digitChar_facts hd10).2.2.1, (digitChar_facts hd10).2.2.2.1⟩
  · simp only [jsIntToString, if_neg hneg] at hc
    obtain ⟨d, hd10, rfl⟩ := @mem_natDecDigitsGo (i.toNat + 1) i.toNat
      (by omega) c (by simpa [natDecString] using hc)
    exact ⟨(digitChar_facts hd10).2.2.1, (digitChar_facts hd10).2.2.2.1⟩

/-! ## Round trip of the canonical header through the parser -/

theorem string_mk_data (s : String) : String.mk s.data = s := by
  cases s
  rfl

theorem string_data_mk (l : List Char) : (String.mk l).data = l := rfl

theorem formatSignatureHeader_data (t : Int) (sig : List Char) :
    (formatSignatureHeader t (String.mk sig)).data =
      ('t' :: '=' :: (jsIntToString t).data) ++ ',' :: ('v' :: '1' :: '=' :: sig) := by
  unfold formatSignatureHeader
  rw [String.data_append, String.data_append, String.data_append]
  simp only [List.append_assoc]
  rfl

theorem parseWebhookSignature_format (t : Int) (sig : List Char)
    (hsig : ∀ c ∈ sig, c ≠ ',') :
    parseWebhookSignature (formatSignatureHeader t (String.mk sig)) =
      some ⟨t, String.mk sig⟩ := by
  have hdata := formatSignatureHeader_data t sig
  have hfirst : ∀ c ∈ 't' :: '=' :: (jsIntToString t).data, c ≠ ',' := by
    intro c hc
    simp only [List.mem_cons] at hc
    rcases hc with rfl | rfl | hc
    · decide
    · decide
    · exact (jsIntToString_chars t c hc).1
  have hsecond : ∀ c ∈ 'v' :: '1' :: '=' :: sig, c ≠ ',' := by
    intro c hc
    simp only [List.mem_cons] at hc
    rcases hc with rfl | rfl | rfl | hc
    · decide
    · decide
    · decide
    · exact hsig c hc
  have hsplit : splitOnComma (formatSignatureHeader t (String.mk sig)).data =
      [('t' :: '=' :: (jsIntToString t).data), ('v' :: '1' :: '=' :: sig)] := by
    rw [hdata, splitOnComma_append _ _ hfirst, splitOnComma_no_comma _ hsecond]
  have hseg1 : splitFirstEq ('t' :: '=' :: (jsIntToString t).data) =
      some (['t'], (jsIntToString t).data) :=
    splitFirstEq_append ['t'] (jsIntToString t).data (by decide)
  have hseg2 : splitFirstEq ('v' :: '1' :: '=' :: sig) = some (['v', '1'], sig) :=
    splitFirstEq_append ['v', '1'] sig (by decide)
  have hscan : scanSegments [('t' :: '=' :: (jsIntToString t).data),
      ('v' :: '1' :: '=' :: sig)] none none =
      (some (jsParseInt10L (jsIntToString t).data), some sig) := by
    simp only [scanSegments, hseg1, hseg2, if_pos rfl, if_neg (by decide : ¬(['v', '1'] = ['t']))]
    simp
  unfold parseWebhookSignature
  rw [hsplit, hscan, jsParseInt10L_jsIntToString]

/-! ## The comparison tail of verification -/

theorem compareSignatureBuffers_self (a : List Nat) :
    compareSignatureBuffers a a = some .valid := by
  unfold compareSignatureBuffers
  rw [if_neg (by omega), timingSafeEqual_self]
  rfl

theorem compareSignatureBuffers_of_ne (a b : List Nat) (hne : a ≠ b) :
    compareSignatureBuffers a b = some (.invalid "Invalid signature") := by
  unfold compareSignatureBuffers
  by_cases hl : a.length = b.length
  · rw [if_neg (by omega), timingSafeEqual_eq_length _ _ hl, decide_eq_false hne]
    rfl
  · rw [if_pos hl]

theorem compareSignatureBuffers_ne_none (a b : List Nat) :
    compareSignatureBuffers a b ≠ none := by
  by_cases heq : a = b
  · subst heq
    rw [compareSignatureBuffers_self]
    simp
  · rw [compareSignatureBuffers_of_ne a b heq]
    simp

theorem verifySignatureTail_eq_compare (secret : String) (ts : Int) (sig body : String) :
    verifySignatureTail secret ts sig body = compareSignatureBuffers (hexDecode sig.data)
      (hmacSha256 (utf8Bytes secret) (utf8Bytes (jsIntToString ts ++ "." ++ body))) := by
  unfold verifySignatureTail
  rw [hexDecode_hexEncode _
    (hmacSha256_lt (utf8Bytes secret) (utf8Bytes (jsIntToString ts ++ "." ++ body)))]

theorem verifySignatureTail_of_eq (secret : String) (ts : Int) (sig body : String)
    (heq : hexDecode sig.data =
      hmacSha256 (utf8Bytes secret) (utf8Bytes (jsIntToString ts ++ "." ++ body))) :
    verifySignatureTail secret ts sig body = some .valid := by
  rw [verifySignatureTail_eq_compare, ← heq, compareSignatureBuffers_self]

theorem verifySignatureTail_of_ne (secret : String) (ts : Int) (sig body : String)
    (hne : hexDecode sig.data ≠
      hmacSha256 (utf8Bytes secret) (utf8Bytes (jsIntToString ts ++ "." ++ body))) :
    verifySignatureTail secret ts sig body = some (.invalid "Invalid signature") := by
  rw [verifySignatureTail_eq_compare, compareSignatureBuffers_of_ne _ _ hne]

theorem verifySignatureTail_len_ne (secret : String) (ts : Int) (sig body : String)
    (h : (hexDecode sig.data).length ≠ 32) :
    verifySignatureTail secret ts sig body = some (.invalid "Invalid signature") := by
  apply verifySignatureTail_of_ne
  intro heq
  rw [heq, hmacSha256_length] at h
  exact h rfl

theorem verifySignatureTail_ne_none (secret : String) (ts : Int) (sig body : String) :
    verifySignatureTail secret ts sig body ≠ none := by
  rw [verifySignatureTail_eq_compare]
  exact compareSignatureBuffers_ne_none _ _

theorem verifySignatureTail_cases (secret : String) (ts : Int) (sig body : String) :
    verifySignatureTail secret ts sig body = some .valid ∨
      verifySignatureTail secret ts sig body = some (.invalid "Invalid signature") := by
  by_cases heq : hexDecode sig.data =
      hmacSha256 (utf8Bytes secret) (utf8Bytes (jsIntToString ts ++ "." ++ body))
  · exact Or.inl (verifySignatureTail_of_eq secret ts sig body heq)
  · exact Or.inr (verifySignatureTail_of_ne secret ts sig body heq)

theorem verifySignatureTail_expected (secret : String) (ts : Int) (body : String) :
    verifySignatureTail secret ts
      (hmacSha256Hex secret (jsIntToString ts ++ "." ++ body)) body = some .valid := by
  apply verifySignatureTail_of_eq
  exact hexDecode_hexEncode _
    (hmacSha256_lt (utf8Bytes secret) (utf8Bytes (jsIntToString ts ++ "." ++ body)))

/-! ## Unfolding of the verification pipeline -/

theorem verifyWebhookSignature_unfold (secret h body : String)
    (options : Option VerifyWebhookOptions) (now : Int) :
    verifyWebhookSignature secret h body options now =
      match parseWebhookSignature h with
      | none => some (.invalid "Invalid signature format")
      | some parsed =>
        match options.bind VerifyWebhookOptions.maxAge with
        | some maxAge =>
          if now - parsed.timestamp > maxAge then
            some (.invalid "Signature timestamp too old")
          else if now - parsed.timestamp < -60 then
            some (.invalid "Signature timestamp in the future")
          else verifySignatureTail secret parsed.timestamp parsed.signature body
        | none => verifySignatureTail secret parsed.timestamp parsed.signature body := rfl

theorem verify_of_parse_none (secret h body : String) (options : Option VerifyWebhookOptions)
    (now : Int) (hp : parseWebhookSignature h = none) :
    verifyWebhookSignature secret h body options now =
      some (.invalid "Invalid signature format") := by
  rw [verifyWebhookSignature_unfold, hp]

theorem verify_no_maxAge (secret h body : String) (now : Int) (ts : Int) (sig : String)
    (hp : parseWebhookSignature h = some ⟨ts, sig⟩) :
    verifyWebhookSignature secret h body none now =
      verifySignatureTail secret ts sig body := by
  rw [verifyWebhookSignature_unfold, hp]
  rfl

theorem verify_options_no_maxAge (secret h body : String) (now : Int)
    (ts : Int) (sig : String) (hp : parseWebhookSignature h = some ⟨ts, sig⟩) :
    verifyWebhookSignature secret h body (some ⟨none⟩) now =
      verifySignatureTail secret ts sig body := by
  rw [verifyWebhookSignature_unfold, hp]
  rfl

theorem verify_with_maxAge (secret h body : String) (now m : Int)
    (ts : Int) (sig : String) (hp : parseWebhookSignature h = some ⟨ts, sig⟩) :
    verifyWebhookSignature secret h body (some ⟨some m⟩) now =
      (if now - ts > m then some (.invalid "Signature timestamp too old")
       else if now - ts < -60 then
        some (.invalid "Signature timestamp in the future")
       else verifySignatureTail secret ts sig body) := by
  rw [verifyWebhookSignature_unfold, hp]
  rfl

/-! ## Parsing the generated header -/

theorem hexVal_isSome_ne_comma (c : Char) (h : (hexVal c).isSome) : c ≠ ',' := by
  intro heq
  subst heq
  exact absurd h (by decide)

theorem mem_hexEncode_ne_comma {bs : List Nat} (hb : ∀ b ∈ bs, b < 256)
    {c : Char} (hc : c ∈ hexEncode bs) : c ≠ ',' :=
  (isLowerHexChar_ne c (mem_hexEncode_isLowerHexChar hb hc)).1

theorem hmacSha256Hex_data (secret p : String) :
    (hmacSha256Hex secret p).data =
      hexEncode (hmacSha256 (utf8Bytes secret) (utf8Bytes p)) := rfl

theorem parse_generate (secret : String) (ts : Int) (body : String) :
    parseWebhookSignature (generateWebhookSignature secret ts body) =
      some ⟨ts, hmacSha256Hex secret (jsIntToString ts ++ "." ++ body)⟩ := by
  have hlt := hmacSha256_lt (utf8Bytes secret) (utf8Bytes (jsIntToString ts ++ "." ++ body))
  exact parseWebhookSignature_format ts
    (hexEncode (hmacSha256 (utf8Bytes secret) (utf8Bytes (jsIntToString ts ++ "." ++ body))))
    (fun c hc => mem_hexEncode_ne_comma hlt hc)

/-! ## Claim theorems -/

/-- C1: for every secret string, integer timestamp, and body string (and
every wall-clock reading, which is unused when no `maxAge` option is
given), `verifyWebhookSignature secret (generateWebhookSignature secret
ts body) body` with no options returns `{valid: true}` (and in
particular does not throw). -/
theorem verify_generate_valid (secret : String) (ts : Int) (body : String) (now : Int) :
    verifyWebhookSignature secret (generateWebhookSignature secret ts body) body none now =
      some .valid := by
  rw [verify_no_maxAge secret _ body now ts _ (parse_generate secret ts body)]
  exact verifySignatureTail_expected secret ts body

/-- C5: for every integer timestamp `t` and hex signature string `sig`,
parsing the canonical header `t=<t>,v1=<sig>` (the exact layout
`generateWebhookSignature` emits) yields exactly `{timestamp := t,
signature := sig}`: the codec round trip is exact. -/
theorem parse_format_round_trip (t : Int) (sig : String)
    (hsig : ∀ c ∈ sig.data, (hexVal c).isSome) :
    parseWebhookSignature (formatSignatureHeader t sig) = some ⟨t, sig⟩ := by
  have h2 := parseWebhookSignature_format t sig.data
    (fun c hc => hexVal_isSome_ne_comma c (hsig c hc))
  rw [string_mk_data] at h2
  exact h2

/-- Witness for C5 at `t = 5`, `sig = "ab"`. -/
theorem parse_format_round_trip_witness :
    parseWebhookSignature (formatSignatureHeader 5 "ab") = some ⟨5, "ab"⟩ :=
  parse_format_round_trip 5 "ab" (by decide)

/-- C8: the header `generateWebhookSignature` emits is
`t=<ts>,v1=<sig>` where `<sig>` is the lowercase hex encoding of the
full HMAC-SHA256 digest, keyed by the secret, of the canonical signing
string `"<ts>.<body>"` (decimal timestamp, one dot, the raw body); the
hex signature is 64 lowercase hex characters; and the comparison tail of
`verifyWebhookSignature` compares the claimed buffer against exactly
that digest. Purity and determinism hold by construction: the embedding
is a function of its three arguments. -/
theorem generate_signature_shape (secret : String) (ts : Int) (body : String) :
    generateWebhookSignature secret ts body =
      "t=" ++ jsIntToString ts ++ ",v1=" ++
        String.mk (hexEncode (hmacSha256 (utf8Bytes secret)
          (utf8Bytes (jsIntToString ts ++ "." ++ body)))) ∧
    (hmacSha256Hex secret (jsIntToString ts ++ "." ++ body)).data.length = 64 ∧
    (∀ c ∈ (hmacSha256Hex secret (jsIntToString ts ++ "." ++ body)).data,
      isLowerHexChar c = true) ∧
    (∀ sig : String, verifySignatureTail secret ts sig body =
      compareSignatureBuffers (hexDecode sig.data)
        (hmacSha256 (utf8Bytes secret) (utf8Bytes (jsIntToString ts ++ "." ++ body)))) := by
  refine ⟨rfl, ?_, ?_, ?_⟩
  · rw [hmacSha256Hex_data, hexEncode_length, hmacSha256_length]
  · rw [hmacSha256Hex_data]
    exact fun c hc => mem_hexEncode_isLowerHexChar
      (hmacSha256_lt (utf8Bytes secret) (utf8Bytes (jsIntToString ts ++ "." ++ body))) hc
  · exact fun sig => verifySignatureTail_eq_compare secret ts sig body

/-- C9: the parse result of a signature header depends only on the
final segment carrying each recognized key: the scan overwrites earlier
`t` and `v1` occurrences, so `parseWebhookSignature` equals the function
of the last `t` value and the last `v1` value. -/
theorem parse_uses_last_occurrence (header : String) :
    parseWebhookSignature header =
      match lastValueOfKey ['t'] (splitOnComma header.data),
        lastValueOfKey ['v', '1'] (splitOnComma header.data) with
      | some tval, some sval =>
        (match jsParseInt10L tval with
         | some ts => some ⟨ts, String.mk sval⟩
         | none => none)
      | _, _ => none :=
  parseWebhookSignature_eq_last header

/-- C4 counterexample: the header `t=12abc,v1=x` has a `t` value that is
not a base-10 integer literal, yet `parseWebhookSignature` succeeds with
timestamp 12, because JavaScript `parseInt` reads the longest digit
run and ignores what follows. -/
theorem parse_integer_literal_counterexample :
    parseWebhookSignature "t=12abc,v1=x" = some ⟨12, "x"⟩ ∧
      specIsBase10IntegerLiteral "12abc" = false := by
  constructor
  · decide
  · decide

/-- C4 amended: `parseWebhookSignature` returns `none` exactly when,
after scanning all comma-separated segments, the key `t` never occurs,
the key `v1` never occurs, or the last `t` value yields `NaN` under
JavaScript `parseInt(-, 10)` semantics (no leading digit run after
optional sign and whitespace) — not whenever the `t` value fails to be a
base-10 integer literal: a `t` value with a digit-run prefix parses. -/
theorem parse_none_characterization (header : String) :
    parseWebhookSignature header = none ↔
      (lastValueOfKey ['t'] (splitOnComma header.data) = none ∨
       lastValueOfKey ['v', '1'] (splitOnComma header.data) = none ∨
       ∃ tval, lastValueOfKey ['t'] (splitOnComma header.data) = some tval ∧
         jsParseInt10L tval = none) := by
  rw [parseWebhookSignature_eq_last]
  rcases ht : lastValueOfKey ['t'] (splitOnComma header.data) with _ | tval <;>
    rcases hv : lastValueOfKey ['v', '1'] (splitOnComma header.data) with _ | sval
  · simp
  · simp
  · simp
  · rcases hj : jsParseInt10L tval with _ | ts
    · simp [hj]
    · simp [hj]

/-- C3: the fixed-time comparison used by `verifyWebhookSignature`
(modelled from the documented behaviour of Node's
`crypto.timingSafeEqual`, instrumented with a step count) examines every
byte position when the buffers have equal length: the number of byte
comparisons equals the buffer length, and is the same for any two pairs
of buffers of those lengths, so elapsed time reveals nothing about where
the first differing byte lies. -/
theorem timing_comparison_every_byte (a b : List Nat) (h : a.length = b.length) :
    (xorAccumCount a b).2 = a.length ∧
    (∀ a2 b2 : List Nat, a2.length = a.length → b2.length = b.length →
      (xorAccumCount a2 b2).2 = (xorAccumCount a b).2) := by
  constructor
  · rw [xorAccumCount_snd, h, Nat.min_self]
  · intro a2 b2 h2 h3
    rw [xorAccumCount_snd, xorAccumCount_snd, h2, h3]

/-- Witness for C3 at the equal-length buffers `[1, 2]` and `[3, 4]`. -/
theorem timing_comparison_every_byte_witness :
    (xorAccumCount [1, 2] [3, 4]).2 = ([1, 2] : List Nat).length ∧
    (∀ a2 b2 : List Nat, a2.length = ([1, 2] : List Nat).length →
      b2.length = ([3, 4] : List Nat).length →
      (xorAccumCount a2 b2).2 = (xorAccumCount [1, 2] [3, 4]).2) :=
  timing_comparison_every_byte [1, 2] [3, 4] (by decide)

/-- C6: the checks of `verifyWebhookSignature` run in a fixed order: an
unparseable header yields `Invalid signature format` whatever the other
arguments are; and with `maxAge` supplied, a failing age check yields
`Signature timestamp too old` (or, when the age check passes but the
forward-skew check fails, `Signature timestamp in the future`) for every
secret, body, and claimed signature — the temporal verdict is reached
before any signature is computed or compared. -/
theorem verify_check_order (secret header body : String)
    (options : Option VerifyWebhookOptions) (now : Int) :
    (parseWebhookSignature header = none →
      verifyWebhookSignature secret header body options now =
        some (.invalid "Invalid signature format")) ∧
    (∀ ts : Int, ∀ sig : String, ∀ m : Int,
      parseWebhookSignature header = some ⟨ts, sig⟩ →
      options = some ⟨some m⟩ →
      ((now - ts > m →
        verifyWebhookSignature secret header body options now =
          some (.invalid "Signature timestamp too old")) ∧
       (¬(now - ts > m) → now - ts < -60 →
        verifyWebhookSignature secret header body options now =
          some (.invalid "Signature timestamp in the future")))) := by
  constructor
  · intro hp
    exact verify_of_parse_none secret header body options now hp
  · intro ts sig m hp hopt
    subst hopt
    rw [verify_with_maxAge secret header body now m ts sig hp]
    constructor
    · intro hage
      rw [if_pos hage]
    · intro hage1 hage2
      rw [if_neg hage1, if_pos hage2]

/-- Witness for C6: an unparseable header fails with the format error
even under a `maxAge` option, and a stale timestamp fails with the age
error regardless of the (here nonsensical) signature. -/
theorem verify_check_order_witness :
    verifyWebhookSignature "s" "nope" "b" (some ⟨some 10⟩) 0 =
      some (.invalid "Invalid signature format") ∧
    verifyWebhookSignature "s" "t=0,v1=aa" "b" (some ⟨some 10⟩) 100 =
      some (.invalid "Signature timestamp too old") :=
  ⟨(verify_check_order "s" "nope" "b" (some ⟨some 10⟩) 0).1 (by decide),
   ((verify_check_order "s" "t=0,v1=aa" "b" (some ⟨some 10⟩) 100).2 0 "aa" 10
     (by decide) rfl).1 (by decide)⟩

/-- C2 counterexample: with `maxAge = -200` supplied and `age = -100`,
the age is below `-60` yet the result is `Signature timestamp too old`,
not `Signature timestamp in the future`, because the `age > maxAge`
check runs first — so "Invalid(TooFarInFuture) exactly when age < -60"
fails as stated. -/
theorem replay_window_counterexample :
    verifyWebhookSignature "s" "t=0,v1=aa" "" (some ⟨some (-200)⟩) (-100) =
      some (.invalid "Signature timestamp too old") ∧
    ((-100 : Int) - 0 < -60) ∧
    WebhookSignatureResult.invalid "Signature timestamp too old" ≠
      WebhookSignatureResult.invalid "Signature timestamp in the future" := by
  refine ⟨by decide, by decide, by decide⟩

/-- C2 amended: with a parsed header, (a) no `maxAge`: the result does
not depend on the clock, an options record without `maxAge` behaves the
same, and neither temporal error can occur — any timestamp however old
passes; (b) `maxAge` supplied, `age = now - ts`: the result is
`Signature timestamp too old` exactly when `age > maxAge`, and
`Signature timestamp in the future` exactly when `age ≤ maxAge` and
`age < -60` (the staleness check runs first; for every `maxAge ≥ -61`,
in particular every nonnegative `maxAge`, this is exactly `age < -60`);
when `age ≤ maxAge` and `age ≥ -60` the temporal check passes and the
result coincides with the no-`maxAge` result, so the boundary cases
`age = maxAge` and `age = -60` both pass. -/
theorem replay_window_semantics (secret header body : String) (ts : Int) (sig : String)
    (now m : Int) (hp : parseWebhookSignature header = some ⟨ts, sig⟩) :
    (∀ now2 : Int, verifyWebhookSignature secret header body none now =
      verifyWebhookSignature secret header body none now2) ∧
    verifyWebhookSignature secret header body (some ⟨none⟩) now =
      verifyWebhookSignature secret header body none now ∧
    verifyWebhookSignature secret header body none now ≠
      some (.invalid "Signature timestamp too old") ∧
    verifyWebhookSignature secret header body none now ≠
      some (.invalid "Signature timestamp in the future") ∧
    (verifyWebhookSignature secret header body (some ⟨some m⟩) now =
        some (.invalid "Signature timestamp too old") ↔ now - ts > m) ∧
    (verifyWebhookSignature secret header body (some ⟨some m⟩) now =
        some (.invalid "Signature timestamp in the future") ↔
      (now - ts ≤ m ∧ now - ts < -60)) ∧
    (now - ts ≤ m → -60 ≤ now - ts →
      verifyWebhookSignature secret header body (some ⟨some m⟩) now =
        verifyWebhookSignature secret header body none now) := by
  have hnone : ∀ now2 : Int, verifyWebhookSignature secret header body none now2 =
      verifySignatureTail secret ts sig body :=
    fun now2 => verify_no_maxAge secret header body now2 ts sig hp
  have htail := verifySignatureTail_cases secret ts sig body
  have hs1 : verifySignatureTail secret ts sig body ≠
      some (.invalid "Signature timestamp too old") := by
    rcases htail with h2 | h2 <;> rw [h2] <;> decide
  have hs2 : verifySignatureTail secret ts sig body ≠
      some (.invalid "Signature timestamp in the future") := by
    rcases htail with h2 | h2 <;> rw [h2] <;> decide
  have hm := verify_with_maxAge secret header body now m ts sig hp
  refine ⟨fun now2 => by rw [hnone now, hnone now2], ?_, ?_, ?_, ?_, ?_, ?_⟩
  · rw [verify_options_no_maxAge secret header body now ts sig hp, hnone now]
  · rw [hnone now]
    exact hs1
  · rw [hnone now]
    exact hs2
  · rw [hm]
    constructor
    · intro h2
      by_contra hage
      rw [if_neg hage] at h2
      by_cases h60 : now - ts < -60
      · rw [if_pos h60] at h2
        exact absurd h2 (by decide)
      · rw [if_neg h60] at h2
        exact hs1 h2
    · intro hage
      rw [if_pos hage]
  · rw [hm]
    constructor
    · intro h2
      by_cases hage : now - ts > m
      · rw [if_pos hage] at h2
        exact absurd h2 (by decide)
      · rw [if_neg hage] at h2
        by_cases h60 : now - ts < -60
        · exact ⟨by omega, h60⟩
        · rw [if_neg h60] at h2
          exact absurd h2 hs2
    · rintro ⟨hage, h60⟩
      rw [if_neg (by omega), if_pos h60]
  · intro h1 h2
    rw [hm, if_neg (by omega), if_neg (by omega), hnone now]

/-- Witness for C2 at header `t=100,v1=aa`, `maxAge = 300`,
`now = 150`. -/
theorem replay_window_semantics_witness :
    (∀ now2 : Int, verifyWebhookSignature "s" "t=100,v1=aa" "b" none 150 =
      verifyWebhookSignature "s" "t=100,v1=aa" "b" none now2) ∧
    verifyWebhookSignature "s" "t=100,v1=aa" "b" (some ⟨none⟩) 150 =
      verifyWebhookSignature "s" "t=100,v1=aa" "b" none 150 ∧
    verifyWebhookSignature "s" "t=100,v1=aa" "b" none 150 ≠
      some (.invalid "Signature timestamp too old") ∧
    verifyWebhookSignature "s" "t=100,v1=aa" "b" none 150 ≠
      some (.invalid "Signature timestamp in the future") ∧
    (verifyWebhookSignature "s" "t=100,v1=aa" "b" (some ⟨some 300⟩) 150 =
        some (.invalid "Signature timestamp too old") ↔ (150 : Int) - 100 > 300) ∧
    (verifyWebhookSignature "s" "t=100,v1=aa" "b" (some ⟨some 300⟩) 150 =
        some (.invalid "Signature timestamp in the future") ↔
      ((150 : Int) - 100 ≤ 300 ∧ (150 : Int) - 100 < -60)) ∧
    ((150 : Int) - 100 ≤ 300 → -60 ≤ (150 : Int) - 100 →
      verifyWebhookSignature "s" "t=100,v1=aa" "b" (some ⟨some 300⟩) 150 =
        verifyWebhookSignature "s" "t=100,v1=aa" "b" none 150) :=
  replay_window_semantics "s" "t=100,v1=aa" "b" 100 "aa" 150 300 (by decide)

/-! ## Case-preservation of hex decoding and uppercasing -/

theorem hexDecode_map (f : Char → Char) (hf : ∀ c, hexVal (f c) = hexVal c) :
    ∀ l : List Char, hexDecode (l.map f) = hexDecode l
  | [] => rfl
  | [c] => rfl
  | c1 :: c2 :: rest => by
    have ih := hexDecode_map f hf rest
    show hexDecode (f c1 :: f c2 :: rest.map f) = hexDecode (c1 :: c2 :: rest)
    simp only [hexDecode, hf c1, hf c2]
    cases h1 : hexVal c1 <;> cases h2 : hexVal c2 <;> simp [ih]

theorem hexVal_upperHexChar (c : Char) : hexVal (upperHexChar c) = hexVal c := by
  unfold upperHexChar
  split_ifs with h1 h2 h3 h4 h5 h6
  · subst h1
    decide
  · subst h2
    decide
  · subst h3
    decide
  · subst h4
    decide
  · subst h5
    decide
  · subst h6
    decide
  · rfl

/-- C7 counterexample: appending `zz` to a correct 64-character hex
signature gives a claimed signature that is not valid hex, yet
verification returns `{valid: true}` rather than
`Invalid(SignatureMismatch)`: `Buffer.from(-, "hex")` truncates at the
first non-hex character, so the decoded bytes equal the expected
digest. -/
theorem nonhex_signature_counterexample :
    (∃ c ∈ (hmacSha256Hex "a" (jsIntToString 1 ++ "." ++ "b") ++ "zz").data,
      hexVal c = none) ∧
    verifyWebhookSignature "a"
      (formatSignatureHeader 1 (hmacSha256Hex "a" (jsIntToString 1 ++ "." ++ "b") ++ "zz"))
      "b" none 0 = some .valid := by
  have hlt := hmacSha256_lt (utf8Bytes "a") (utf8Bytes (jsIntToString 1 ++ "." ++ "b"))
  have hdata : (hmacSha256Hex "a" (jsIntToString 1 ++ "." ++ "b") ++ "zz").data =
      hexEncode (hmacSha256 (utf8Bytes "a") (utf8Bytes (jsIntToString 1 ++ "." ++ "b"))) ++
        ['z', 'z'] := by
    rw [String.data_append, hmacSha256Hex_data]
  constructor
  · refine ⟨'z', ?_, by decide⟩
    rw [hdata]
    exact List.mem_append_right _ (by decide)
  · have hstr : hmacSha256Hex "a" (jsIntToString 1 ++ "." ++ "b") ++ "zz" =
        String.mk (hexEncode (hmacSha256 (utf8Bytes "a")
          (utf8Bytes (jsIntToString 1 ++ "." ++ "b"))) ++ ['z', 'z']) := by
      rw [← hdata, string_mk_data]
    have hnc : ∀ c ∈ hexEncode (hmacSha256 (utf8Bytes "a")
        (utf8Bytes (jsIntToString 1 ++ "." ++ "b"))) ++ ['z', 'z'], c ≠ ',' := by
      intro c hc
      rcases List.mem_append.mp hc with hc2 | hc2
      · exact mem_hexEncode_ne_comma hlt hc2
      · have hz : c = 'z' := by simpa using hc2
        subst hz
        decide
    have hp := parseWebhookSignature_format 1
      (hexEncode (hmacSha256 (utf8Bytes "a") (utf8Bytes (jsIntToString 1 ++ "." ++ "b"))) ++
        ['z', 'z']) hnc
    rw [hstr]
    rw [verify_no_maxAge "a" _ "b" 0 1 _ hp]
    apply verifySignatureTail_of_eq
    rw [hexDecode_hexEncode_append _ _ hlt]
    have hzz : hexDecode ['z', 'z'] = [] := by decide
    rw [hzz, List.append_nil]

/-- C7 amended: `verifyWebhookSignature` never throws — every outcome is
a `{valid, error}` value — and the explicit length guard makes the
throwing (unequal-length) branch of `timingSafeEqual` unreachable; a
claimed signature whose decoded byte buffer is not 32 bytes long (for
example one that is not hex at all) yields `Invalid signature`. A
claimed signature that is not wholly valid hex can, however, still
verify as valid when the decodable prefix of its hex decoding equals the
expected digest, since `Buffer.from(-, "hex")` truncates instead of
failing. -/
theorem verify_never_throws (secret header body : String)
    (options : Option VerifyWebhookOptions) (now : Int) :
    verifyWebhookSignature secret header body options now ≠ none ∧
    (∀ a b : List Nat, compareSignatureBuffers a b ≠ none) ∧
    (∀ ts : Int, ∀ sig : String, (hexDecode sig.data).length ≠ 32 →
      verifySignatureTail secret ts sig body = some (.invalid "Invalid signature")) := by
  refine ⟨?_, fun a b => compareSignatureBuffers_ne_none a b,
    fun ts sig h2 => verifySignatureTail_len_ne secret ts sig body h2⟩
  rcases hp : parseWebhookSignature header with _ | p
  · rw [verify_of_parse_none secret header body options now hp]
    simp
  · obtain ⟨ts, sig⟩ := p
    rcases options with _ | o
    · rw [verify_no_maxAge secret header body now ts sig hp]
      exact verifySignatureTail_ne_none secret ts sig body
    · obtain ⟨mA⟩ := o
      rcases mA with _ | m
      · rw [verify_options_no_maxAge secret header body now ts sig hp]
        exact verifySignatureTail_ne_none secret ts sig body
      · rw [verify_with_maxAge secret header body now m ts sig hp]
        split
        · simp
        · split
          · simp
          · exact verifySignatureTail_ne_none secret ts sig body

/-- Witness for C7: a two-character non-hex signature decodes to zero
bytes and is rejected as a signature mismatch, with no exception. -/
theorem verify_never_throws_witness :
    verifyWebhookSignature "a" "t=1,v1=zz" "" none 0 ≠ none ∧
    verifySignatureTail "a" 1 "zz" "" = some (.invalid "Invalid signature") :=
  ⟨(verify_never_throws "a" "t=1,v1=zz" "" none 0).1,
   (verify_never_throws "a" "t=1,v1=zz" "" none 0).2.2 1 "zz" (by decide)⟩

/-- C10: verification accepts the correct signature written with any
per-character case change that preserves hex digit values (uppercase or
mixed case): both hex strings are decoded to bytes before the
comparison, and decoding is case-insensitive. -/
theorem verify_case_insensitive_hex (secret : String) (ts : Int) (body : String)
    (now : Int) (f : Char → Char) (hf : ∀ c, hexVal (f c) = hexVal c) :
    verifyWebhookSignature secret
      (formatSignatureHeader ts (String.mk
        ((hmacSha256Hex secret (jsIntToString ts ++ "." ++ body)).data.map f)))
      body none now = some .valid := by
  have hlt := hmacSha256_lt (utf8Bytes secret) (utf8Bytes (jsIntToString ts ++ "." ++ body))
  have hchars : ∀ c ∈ (hmacSha256Hex secret (jsIntToString ts ++ "." ++ body)).data.map f,
      c ≠ ',' := by
    intro c hc
    rw [List.mem_map] at hc
    obtain ⟨c0, hc0, rfl⟩ := hc
    rw [hmacSha256Hex_data] at hc0
    have hsome : (hexVal c0).isSome :=
      hexVal_isSome_of_isLowerHexChar c0 (mem_hexEncode_isLowerHexChar hlt hc0)
    apply hexVal_isSome_ne_comma
    rw [hf c0]
    exact hsome
  have hp := parseWebhookSignature_format ts
    ((hmacSha256Hex secret (jsIntToString ts ++ "." ++ body)).data.map f) hchars
  rw [verify_no_maxAge secret _ body now ts _ hp]
  apply verifySignatureTail_of_eq
  rw [string_data_mk, hexDecode_map f hf, hmacSha256Hex_data]
  exact hexDecode_hexEncode _ hlt

/-- Witness for C10: the uppercased hex signature still verifies. -/
theorem verify_case_insensitive_hex_witness :
    verifyWebhookSignature "k"
      (formatSignatureHeader 7 (String.mk
        ((hmacSha256Hex "k" (jsIntToString 7 ++ "." ++ "x")).data.map upperHexChar)))
      "x" none 0 = some .valid :=
  verify_case_insensitive_hex "k" 7 "x" 0 upperHexChar hexVal_upperHexChar

end LocuWebhook
